import Mathlib

/-!
Verification development for the SKU/UNIDADES extraction scripts
(src/app.py and src/App.py).  Pages are modelled as lists of characters
(the text that pdfplumber's page.extract_text() returns); a document is a
list of pages.  Every definition below is a direct shallow embedding of a
Python function or regular expression from the two source files.
-/

/-- Shorthand turning a string literal into the character-list representation
used throughout this development. -/
def str (s : String) : List Char := s.toList

/-- ASCII uppercase letter test (code points 65-90, the characters A-Z), one
half of the regex class [A-Za-z0-9]. -/
def isUpperLetter (c : Char) : Bool := 65 ≤ c.toNat && c.toNat ≤ 90

/-- ASCII lowercase letter test (code points 97-122, the characters a-z). -/
def isLowerLetter (c : Char) : Bool := 97 ≤ c.toNat && c.toNat ≤ 122

/-- ASCII letter test. -/
def isAsciiLetter (c : Char) : Bool := isUpperLetter c || isLowerLetter c

/-- ASCII digit test (code points 48-57, the characters 0-9), the regex
class \d as produced by the numeric tokens both scripts parse with int(). -/
def isAsciiDigit (c : Char) : Bool := 48 ≤ c.toNat && c.toNat ≤ 57

/-- Membership in the regex character class [A-Za-z0-9] used by SKU_RE. -/
def isAlnum (c : Char) : Bool := isAsciiLetter c || isAsciiDigit c

/-- Python regex word character (\w over ASCII): letters, digits, underscore.
Word boundaries \b in the scripts' patterns are defined from this class. -/
def isWordChar (c : Char) : Bool := isAlnum c || c.toNat = 95

/-- Python whitespace, as matched by the regex class \s and by str.strip() /
str.split(): ASCII whitespace plus the Unicode whitespace code points. -/
def isPySpace (c : Char) : Bool :=
  (9 ≤ c.toNat && c.toNat ≤ 13) || c.toNat = 32 ||
  (28 ≤ c.toNat && c.toNat ≤ 31) || c.toNat = 133 || c.toNat = 160 ||
  c.toNat = 5760 || (8192 ≤ c.toNat && c.toNat ≤ 8202) ||
  c.toNat = 8232 || c.toNat = 8233 || c.toNat = 8239 || c.toNat = 8287 ||
  c.toNat = 12288

/-- Line boundary characters recognised by Python str.splitlines(). -/
def isLineBreak (c : Char) : Bool :=
  (10 ≤ c.toNat && c.toNat ≤ 13) || (28 ≤ c.toNat && c.toNat ≤ 30) ||
  c.toNat = 133 || c.toNat = 8232 || c.toNat = 8233

/-- Python str.splitlines(): split at line boundaries, treating a CRLF pair
as one boundary and producing no trailing empty line. -/
def pySplitlines : List Char → List (List Char)
  | [] => []
  | [c] => if isLineBreak c then [[]] else [[c]]
  | c :: d :: cs =>
    if c = '\r' && d = '\n' then [] :: pySplitlines cs
    else if isLineBreak c then [] :: pySplitlines (d :: cs)
    else
      match pySplitlines (d :: cs) with
      | [] => [[c]]
      | l :: ls => (c :: l) :: ls

/-- Python str.strip(): remove whitespace from both ends. -/
def pyStrip (s : List Char) : List Char :=
  ((s.dropWhile isPySpace).reverse.dropWhile isPySpace).reverse

/-- Python str.strip(ch) for a single character argument: remove every copy
of that character from both ends (used as ln.strip(bar) in markdown_to_df). -/
def pyStripChar (ch : Char) (s : List Char) : List Char :=
  ((s.dropWhile (· = ch)).reverse.dropWhile (· = ch)).reverse

/-- Helper for pyWords: accumulate the current word (reversed) while
scanning. -/
def pyWordsAux : List Char → List Char → List (List Char)
  | [], cur => if cur = [] then [] else [cur.reverse]
  | c :: cs, cur =>
    if isPySpace c then
      if cur = [] then pyWordsAux cs [] else cur.reverse :: pyWordsAux cs []
    else pyWordsAux cs (c :: cur)

/-- Python str.split() with no argument: the maximal runs of non-whitespace
characters, in order. -/
def pyWords (s : List Char) : List (List Char) := pyWordsAux s []

/-- Python int() on a string of ASCII decimal digits. -/
def decVal (t : List Char) : Nat :=
  t.foldl (fun a c => 10 * a + (c.toNat - 48)) 0

/-- Python str.upper() restricted to ASCII letters (the only characters the
scripts' header searches compare). -/
def pyUpper (s : List Char) : List Char :=
  s.map fun c => if isLowerLetter c then Char.ofNat (c.toNat - 32) else c

/-- One attempted match of SKU_RE, the pattern SKU:\s*([A-Za-z0-9]+) with
re.IGNORECASE, at the head of the suffix s.  On success it returns the
captured group together with the text after the match (the match ends at the
end of the capture, where re.finditer resumes). -/
def matchSkuAt (s : List Char) : Option (List Char × List Char) :=
  match s with
  | c1 :: c2 :: c3 :: c4 :: rest =>
    if (c1 = 'S' || c1 = 's') && (c2 = 'K' || c2 = 'k') &&
       (c3 = 'U' || c3 = 'u') && c4 = ':' then
      let afterWs := rest.dropWhile isPySpace
      let tok := afterWs.takeWhile isAlnum
      if tok = [] then none else some (tok, afterWs.drop tok.length)
    else none
  | _ => none

/-- Fuelled scanner implementing re.finditer over SKU_RE: at each position
try the pattern; on success emit the capture and resume after the match, on
failure advance one character.  The fuel argument only serves structural
termination; it is always called with at least the length of the text. -/
def skuScanAux : Nat → List Char → List (List Char)
  | 0, _ => []
  | fuel + 1, s =>
    match s with
    | [] => []
    | c :: cs =>
      match matchSkuAt (c :: cs) with
      | some (tok, rest) => tok :: skuScanAux fuel rest
      | none => skuScanAux fuel cs

/-- extract_skus_in_order (src/App.py) and the identical inline list
comprehension over SKU_RE.finditer in pdf_to_pairs (src/app.py):
the captured groups, each passed through str.strip(). -/
def extract_skus_in_order (t : List Char) : List (List Char) :=
  (skuScanAux t.length t).map pyStrip

/-- Case-insensitive match of a literal (given in uppercase) against the head
of s, returning the remainder on success.  Models the way re.IGNORECASE
compares the letters of PRODUTO and UNIDADES. -/
def ciMatch : List Char → List Char → Option (List Char)
  | [], s => some s
  | _ :: _, [] => none
  | p :: ps, c :: cs => if pyUpper [c] = [p] then ciMatch ps cs else none

/-- Test whether the regex PRODUTO\s+UNIDADES (re.IGNORECASE) matches at the
head of s: the word PRODUTO, then at least one whitespace character, then
UNIDADES.  Because \s+ is followed by a non-whitespace letter, the regex
consumes exactly the maximal whitespace run. -/
def matchHeaderAt (s : List Char) : Bool :=
  match ciMatch (str "PRODUTO") s with
  | none => false
  | some r =>
    decide (r.takeWhile isPySpace ≠ []) &&
    (ciMatch (str "UNIDADES") (r.dropWhile isPySpace)).isSome

/-- Greatest position at most n where matchHeaderAt succeeds on the
corresponding suffix of s. -/
def lastHeaderFrom : Nat → List Char → Option Nat
  | 0, s => if matchHeaderAt s then some 0 else none
  | n + 1, s =>
    if matchHeaderAt (s.drop (n + 1)) then some (n + 1) else lastHeaderFrom n s

/-- Start index of the last match of PRODUTO\s+UNIDADES in s, the value
matches[-1].start() computed by extract_units_from_tail (src/app.py); none
when the list of matches is empty.  Matches of this pattern cannot overlap,
so the last finditer match starts at the greatest matching position. -/
def lastHeaderStart (s : List Char) : Option Nat := lastHeaderFrom s.length s

/-- Leading-number match re.match of (\d{1,4}) followed by \b on a line:
succeeds exactly when the maximal leading digit run has length 1 to 4 and the
following character, if any, is not a word character. -/
def leadNum (s : List Char) : Option Nat :=
  let run := s.takeWhile isAsciiDigit
  if run = [] || run.length > 4 then none
  else
    match s.drop run.length with
    | [] => some (decVal run)
    | c :: _ => if isWordChar c then none else some (decVal run)

/-- Test for one whitespace-separated token of the multi-number line pattern:
one to four ASCII digits. -/
def isShortNum (t : List Char) : Bool :=
  decide (t ≠ []) && t.length ≤ 4 && t.all isAsciiDigit

/-- Contribution of one line of the tail in extract_units_from_tail
(src/app.py): strip the line; skip it when empty; if it fully matches
(?:\d{1,4}\s+)+\d{1,4} (at least two short numbers separated by whitespace)
emit all of them; otherwise emit the leading short number when the line
starts with one. -/
def lineUnits (line : List Char) : List Nat :=
  let s := pyStrip line
  if s = [] then []
  else
    let toks := pyWords s
    if 2 ≤ toks.length && toks.all isShortNum then toks.map decVal
    else
      match leadNum s with
      | some n => [n]
      | none => []

/-- Per-line scan applied to the tail of the page after the header anchor in
extract_units_from_tail (src/app.py). -/
def unitsLineScan (s : List Char) : List Nat :=
  ((pySplitlines s).map lineUnits).flatten

/-- extract_units_from_tail (src/app.py): anchor at the start of the last
match of PRODUTO\s+UNIDADES and run the per-line number scan on the text from
that point on; empty when the header pattern does not match anywhere. -/
def extract_units_from_tail (t : List Char) : List Nat :=
  match lastHeaderStart t with
  | none => []
  | some i => unitsLineScan (t.drop i)

/-- Length bound test used by the bare-number scans: none means the \d+ of
src/App.py (no bound), some b means the \d{1,b} form of src/app.py. -/
def lenOk (bd : Option Nat) (n : Nat) : Bool :=
  match bd with
  | none => true
  | some b => n ≤ b

/-- Scanner for re.findall of a digit run enclosed in word boundaries
(\b\d+\b, or \b\d{1,4}\b when bd bounds the length).  A maximal digit run is
emitted exactly when the character before it (leftOk records that it was
absent or not a word character), the character after it, and its length all
satisfy the boundary and bound conditions; otherwise the whole run is
skipped, since no position inside a digit run carries a word boundary. -/
def bareRunsAux (bd : Option Nat) : Bool → List Char → List Char → List (List Char)
  | leftOk, cur, [] =>
    if decide (cur ≠ []) && leftOk && lenOk bd cur.length then [cur.reverse] else []
  | leftOk, cur, c :: cs =>
    if isAsciiDigit c then bareRunsAux bd leftOk (c :: cur) cs
    else
      let emit := decide (cur ≠ []) && leftOk && !isWordChar c && lenOk bd cur.length
      let rest := bareRunsAux bd (!isWordChar c) [] cs
      if emit then cur.reverse :: rest else rest

/-- All boundary-delimited digit runs of s (subject to the length bound),
converted with int(): the value of re.findall over \b\d+\b or \b\d{1,4}\b. -/
def findallBareNums (bd : Option Nat) (s : List Char) : List Nat :=
  (bareRunsAux bd true [] s).map decVal

/-- Python str.rfind for a needle: greatest index at most n at which the
needle is a prefix of the corresponding suffix. -/
def rfindFrom (pat : List Char) : Nat → List Char → Option Nat
  | 0, s => if pat.isPrefixOf s then some 0 else none
  | n + 1, s =>
    if pat.isPrefixOf (s.drop (n + 1)) then some (n + 1) else rfindFrom pat n s

/-- Python s.rfind(pat) returning an Option instead of -1. -/
def rfindSub (pat s : List Char) : Option Nat := rfindFrom pat s.length s

/-- extract_units_after_header (src/App.py): on the uppercased text look for
the last occurrence of the exact string PRODUTO UNIDADES, falling back to the
last occurrence of UNIDADES alone; return every \b\d+\b number (any length)
in the original text from that index on, and the empty list when neither
string occurs or the page text is empty. -/
def extract_units_after_header (t : List Char) : List Nat :=
  if t = [] then []
  else
    let upper := pyUpper t
    match rfindSub (str "PRODUTO UNIDADES") upper with
    | some i => findallBareNums none (t.drop i)
    | none =>
      match rfindSub (str "UNIDADES") upper with
      | some i => findallBareNums none (t.drop i)
      | none => []

/-- Per-page entry of the diagnostic dictionary built by pdf_to_pairs
(src/app.py): the literal dict with keys page, skus, units, paired. -/
structure PageDiag where
  page : Nat
  skus : Nat
  units : Nat
  paired : Nat
deriving DecidableEq, Repr

/-- Document-level diagnostic of pdf_to_pairs (src/app.py): total page count
plus the ordered per-page entries. -/
structure Diag where
  pages : Nat
  per_page : List PageDiag
deriving DecidableEq, Repr

/-- Quantity sequence that pdf_to_pairs (src/app.py) actually pairs with on
one page: the header-anchored scan, replaced - when it found nothing and the
page has SKUs - by the last len(skus) entries of re.findall over
\b\d{1,4}\b applied to the whole page text (all of them when fewer exist,
nothing when none exist). -/
def pageUnitsUsed (t : List Char) : List Nat :=
  let skus := extract_skus_in_order t
  let units := extract_units_from_tail t
  if units = [] ∧ skus ≠ [] then
    let tailNums := findallBareNums (some 4) t
    if tailNums = [] then []
    else tailNums.drop (tailNums.length - skus.length)
  else units

/-- Pairs contributed by one page in pdf_to_pairs (src/app.py): the loop
for i in range(min(len(skus), len(units))) appending (skus[i], units[i]),
which is exactly positional zipping. -/
def pagePairs (t : List Char) : List (List Char × Nat) :=
  (extract_skus_in_order t).zip (pageUnitsUsed t)

/-- Diagnostic entry appended for one page by pdf_to_pairs (src/app.py). -/
def pageDiag (idx : Nat) (t : List Char) : PageDiag :=
  { page := idx
    skus := (extract_skus_in_order t).length
    units := (pageUnitsUsed t).length
    paired := min (extract_skus_in_order t).length (pageUnitsUsed t).length }

/-- pdf_to_pairs (src/app.py) over the list of page texts the document layer
yields: concatenate every page's pairs in page order and record one
diagnostic entry per page, pages being numbered from 1. -/
def pdf_to_pairs (pages : List (List Char)) : List (List Char × Nat) × Diag :=
  ((pages.map pagePairs).flatten,
   { pages := pages.length
     per_page := pages.enum.map fun p => pageDiag (p.1 + 1) p.2 })

/-- Pairs of pdf_to_pairs annotated with the 1-based ordinal of the page each
one came from; forgetting the annotation recovers the pdf_to_pairs output
(proved below), so this is the page attribution of the emitted sequence. -/
def pdfPairsWithPages (pages : List (List Char)) : List (Nat × (List Char × Nat)) :=
  (pages.enum.map fun p => (pagePairs p.2).map fun pr => (p.1 + 1, pr)).flatten

/-- One row of the DataFrame built by parse_pdf (src/App.py): the dict with
keys page, sku, unidades (None when the page ran out of quantities). -/
structure Row where
  page : Nat
  sku : List Char
  unidades : Option Nat
deriving DecidableEq, Repr

/-- Warnings parse_pdf (src/App.py) appends: the per-page count-mismatch
message (carrying the page ordinal and the two counts interpolated into the
f-string) and the final nothing-extracted message. -/
inductive Warn where
  | countMismatch (page skus units : Nat)
  | noData
deriving DecidableEq, Repr

/-- Body of the page loop of parse_pdf (src/App.py) for one page: skip the
page when it has no SKUs; warn when quantities fall short; truncate
quantities when they exceed the SKUs; emit one row per SKU with
units[i] when i is in range and None otherwise. -/
def parsePage (idx : Nat) (t : List Char) : List Row × List Warn :=
  let skus := extract_skus_in_order t
  let units := extract_units_after_header t
  if skus = [] then ([], [])
  else
    let ws := if units.length < skus.length
      then [Warn.countMismatch idx skus.length units.length] else []
    let units2 := if units.length > skus.length then units.take skus.length else units
    (skus.enum.map fun p => { page := idx, sku := p.2, unidades := units2.get? p.1 }, ws)

/-- parse_pdf (src/App.py) over the list of page texts: concatenate every
page's rows and warnings in page order (pages numbered from 1) and append the
nothing-extracted warning when the DataFrame came out empty. -/
def parse_pdf (pages : List (List Char)) : List Row × List Warn :=
  let per := pages.enum.map fun p => parsePage (p.1 + 1) p.2
  let rows := (per.map Prod.fst).flatten
  let ws := (per.map Prod.snd).flatten
  (rows, if rows = [] then ws ++ [Warn.noData] else ws)

/-- Fuelled decimal rendering of a natural number, least significant digit
split off last; fuel at least the number itself always suffices. -/
def natToDecAux : Nat → Nat → List Char
  | 0, _ => []
  | fuel + 1, n =>
    if n < 10 then [Nat.digitChar n]
    else natToDecAux fuel (n / 10) ++ [Nat.digitChar (n % 10)]

/-- Decimal digit string of a natural number, the text an f-string produces
for the int quantity in pairs_to_markdown (src/app.py). -/
def natToDec (n : Nat) : List Char := natToDecAux (n + 1) n

/-- Markdown source line for one pair in pairs_to_markdown (src/app.py). -/
def mdRowLine (p : List Char × Nat) : List Char :=
  str "| " ++ p.1 ++ str " | " ++ natToDec p.2 ++ str " |"

/-- Python newline.join over a list of line strings. -/
def joinNl : List (List Char) → List Char
  | [] => []
  | [l] => l
  | l :: l2 :: ls => l ++ '\n' :: joinNl (l2 :: ls)

/-- pairs_to_markdown (src/app.py): header line, separator line, one row line
per pair, joined with a newline. -/
def pairs_to_markdown (pairs : List (List Char × Nat)) : List Char :=
  joinNl (str "| SKU | UNIDADES |" :: str "|---|---:|" :: pairs.map mdRowLine)

/-- Python str.split(sep) for a one-character separator: keeps empty pieces
and yields one piece even for the empty string. -/
def splitOnChar (ch : Char) : List Char → List (List Char)
  | [] => [[]]
  | c :: cs =>
    if c = ch then [] :: splitOnChar ch cs
    else
      match splitOnChar ch cs with
      | [] => [[c]]
      | l :: ls => (c :: l) :: ls

/-- Cells of a markdown table line in markdown_to_df (src/app.py): strip the
outer bar characters, split at the remaining bars, strip each cell. -/
def cellsOf (ln : List Char) : List (List Char) :=
  (splitOnChar '|' (pyStripChar '|' ln)).map pyStrip

/-- Full match of the separator-cell pattern (an optional colon, three or
more dashes, an optional colon) against a cell with its spaces removed. -/
def sepCell (t : List Char) : Bool :=
  let t0 := t.filter (· ≠ ' ')
  let t1 := if t0.head? = some ':' then t0.tail else t0
  let dashes := t1.takeWhile (· = '-')
  3 ≤ dashes.length && (t1.drop dashes.length = [] || t1.drop dashes.length = [':'])

/-- is_sep of markdown_to_df (src/app.py): every cell of the line matches the
separator pattern. -/
def isSepLine (ln : List Char) : Bool :=
  (cellsOf ln).all sepCell

/-- Test for str.startswith(bar) used to recognise table lines. -/
def startsBar : List Char → Bool
  | '|' :: _ => true
  | _ => false

/-- Test for str.endswith(bar) used to recognise table lines. -/
def endsBar (ln : List Char) : Bool :=
  match ln.getLast? with
  | some '|' => true
  | _ => false

/-- Leftmost match of re.search over \d+ converted with int(): the maximal
digit run starting at the first digit, None when no digit occurs (the
unidades cell parse of markdown_to_df in src/app.py). -/
def firstNum : List Char → Option Nat
  | [] => none
  | c :: cs =>
    if isAsciiDigit c then some (decVal ((c :: cs).takeWhile isAsciiDigit))
    else firstNum cs

/-- markdown_to_df (src/app.py), with the resulting DataFrame modelled as the
ordered list of its (SKU, UNIDADES) rows: keep the stripped non-empty lines
that start and end with a bar, drop separator lines, read the header from the
first remaining line, locate the SKU and UNIDADES columns, then collect each
later line whose cells reach both columns and whose SKU cell is non-empty. -/
def markdown_to_df (md : List Char) : List (List Char × Option Nat) :=
  if pyStrip md = [] then []
  else
    let lines := ((pySplitlines md).map pyStrip).filter (· ≠ [])
    let tableLines := lines.filter fun ln => startsBar ln && endsBar ln
    if tableLines.length < 2 then []
    else
      match tableLines.filter (fun ln => !isSepLine ln) with
      | [] => []
      | h :: rest =>
        let header := (cellsOf h).map pyUpper
        match header.findIdx? (· = str "SKU"), header.findIdx? (· = str "UNIDADES") with
        | some si, some ui =>
          rest.filterMap fun r =>
            let cells := cellsOf r
            if cells.length ≤ max si ui then none
            else
              let sku := pyStrip (cells.getD si [])
              if sku = [] then none
              else some (sku, firstNum (cells.getD ui []))
        | _, _ => []

/-! Helper lemmas about the character classes. -/

/-- An alphanumeric character is not Python whitespace. -/
theorem not_space_of_alnum {c : Char} (h : isAlnum c = true) : isPySpace c = false := by
  simp only [isAlnum, isAsciiLetter, isUpperLetter, isLowerLetter, isAsciiDigit,
    Bool.or_eq_true, Bool.and_eq_true, decide_eq_true_eq] at h
  simp only [isPySpace, Bool.or_eq_false_iff, Bool.and_eq_false_iff,
    decide_eq_false_iff_not]
  omega

/-- An alphanumeric character is not a line boundary. -/
theorem not_break_of_alnum {c : Char} (h : isAlnum c = true) : isLineBreak c = false := by
  simp only [isAlnum, isAsciiLetter, isUpperLetter, isLowerLetter, isAsciiDigit,
    Bool.or_eq_true, Bool.and_eq_true, decide_eq_true_eq] at h
  simp only [isLineBreak, Bool.or_eq_false_iff, Bool.and_eq_false_iff,
    decide_eq_false_iff_not]
  omega

/-- An ASCII digit is alphanumeric. -/
theorem alnum_of_digit {c : Char} (h : isAsciiDigit c = true) : isAlnum c = true := by
  simp only [isAsciiDigit, Bool.and_eq_true, decide_eq_true_eq] at h
  simp only [isAlnum, isAsciiLetter, isUpperLetter, isLowerLetter, isAsciiDigit,
    Bool.or_eq_true, Bool.and_eq_true, decide_eq_true_eq]
  omega

/-- An alphanumeric character is none of the special characters of the
markdown table syntax. -/
theorem alnum_vals {c : Char} (h : isAlnum c = true) :
    c ≠ '|' ∧ c ≠ ' ' ∧ c ≠ ':' ∧ c ≠ '-' := by
  simp only [isAlnum, isAsciiLetter, isUpperLetter, isLowerLetter, isAsciiDigit,
    Bool.or_eq_true, Bool.and_eq_true, decide_eq_true_eq] at h
  refine ⟨?_, ?_, ?_, ?_⟩ <;> rintro rfl <;> exact absurd h (by decide)

/-! Helper lemmas about the Python string primitives. -/

/-- dropWhile is the identity when the first character already fails the
predicate. -/
theorem dropWhile_eq_self_of_head {p : Char → Bool} :
    ∀ (s : List Char), (∀ c ∈ s.take 1, p c = false) → s.dropWhile p = s
  | [], _ => rfl
  | c :: cs, h => by
    have hc : p c = false := h c (by simp)
    simp [List.dropWhile_cons, hc]

/-- pyStrip is the identity when neither end of the string is whitespace. -/
theorem pyStrip_eq_self {s : List Char} (h1 : ∀ c ∈ s.take 1, isPySpace c = false)
    (h2 : ∀ c ∈ s.reverse.take 1, isPySpace c = false) : pyStrip s = s := by
  unfold pyStrip
  rw [dropWhile_eq_self_of_head s h1, dropWhile_eq_self_of_head s.reverse h2,
    List.reverse_reverse]

/-- pyStrip is the identity on a string with no whitespace at all. -/
theorem pyStrip_eq_self_of_all {s : List Char} (h : ∀ c ∈ s, isPySpace c = false) :
    pyStrip s = s :=
  pyStrip_eq_self (fun c hc => h c (List.mem_of_mem_take hc))
    (fun c hc => h c (List.mem_reverse.mp (List.mem_of_mem_take hc)))

/-- pyStrip returns the empty string exactly when every character is
whitespace. -/
theorem pyStrip_eq_nil_iff {s : List Char} :
    pyStrip s = [] ↔ ∀ c ∈ s, isPySpace c = true := by
  unfold pyStrip
  rw [List.reverse_eq_nil_iff, List.dropWhile_eq_nil_iff]
  constructor
  · intro h c hc
    have hsplit : c ∈ s.takeWhile isPySpace ++ s.dropWhile isPySpace := by
      rw [List.takeWhile_append_dropWhile]; exact hc
    rcases List.mem_append.mp hsplit with h1 | h1
    · exact List.mem_takeWhile_imp h1
    · exact h c (List.mem_reverse.mpr h1)
  · intro h c hc
    exact h c ((List.dropWhile_sublist isPySpace).mem (List.mem_reverse.mp hc))

/-- A string that contains a non-whitespace character does not strip to the
empty string. -/
theorem pyStrip_ne_nil {s : List Char} {c : Char} (hc : c ∈ s)
    (h : isPySpace c = false) : pyStrip s ≠ [] := by
  intro he
  have := pyStrip_eq_nil_iff.mp he c hc
  rw [this] at h
  cases h

/-! Lemmas about the SKU scanner. -/

/-- A successful SKU_RE match consumes at least one character and captures a
non-empty alphanumeric token. -/
theorem matchSkuAt_some {s tok rest : List Char} (h : matchSkuAt s = some (tok, rest)) :
    rest.length < s.length ∧ tok ≠ [] ∧ ∀ c ∈ tok, isAlnum c = true := by
  match s with
  | [] | [_] | [_, _] | [_, _, _] => simp [matchSkuAt] at h
  | c1 :: c2 :: c3 :: c4 :: rest0 =>
    simp only [matchSkuAt] at h
    split at h
    · split at h
      · cases h
      · rename_i hne
        simp only [Option.some.injEq, Prod.mk.injEq] at h
        obtain ⟨rfl, rfl⟩ := h.symm
        refine ⟨?_, hne, fun c hc => List.mem_takeWhile_imp hc⟩
        have hd : (rest0.dropWhile isPySpace).length ≤ rest0.length :=
          (List.dropWhile_sublist _).length_le
        have ht : 0 < ((rest0.dropWhile isPySpace).takeWhile isAlnum).length :=
          List.length_pos.mpr hne
        rw [List.length_drop]
        simp only [List.length_cons]
        omega
    · cases h

/-- The SKU scanner does not depend on the exact fuel value, provided the
fuel covers the length of the text. -/
theorem skuScanAux_congr (f1 : Nat) : ∀ (f2 : Nat) (s : List Char),
    s.length ≤ f1 → s.length ≤ f2 → skuScanAux f1 s = skuScanAux f2 s := by
  induction f1 with
  | zero =>
    intro f2 s h1 _
    have hs : s = [] := by cases s <;> simp_all
    subst hs; cases f2 <;> rfl
  | succ f1 ih =>
    intro f2 s h1 h2
    cases s with
    | nil => cases f2 <;> rfl
    | cons c cs =>
      cases f2 with
      | zero => simp at h2
      | succ f2' =>
        simp only [skuScanAux]
        cases hm : matchSkuAt (c :: cs) with
        | none =>
          simp only [List.length_cons] at h1 h2
          exact ih f2' cs (by omega) (by omega)
        | some pr =>
          obtain ⟨tok, rest⟩ := pr
          have hlt := (matchSkuAt_some hm).1
          simp only [List.length_cons] at h1 h2 hlt
          exact congrArg (tok :: ·) (ih f2' rest (by omega) (by omega))

/-- Unfolding of the extractor at a successful match: emit the stripped
capture, then continue after the match. -/
theorem extract_skus_match {c : Char} {cs tok rest : List Char}
    (h : matchSkuAt (c :: cs) = some (tok, rest)) :
    extract_skus_in_order (c :: cs) = pyStrip tok :: extract_skus_in_order rest := by
  unfold extract_skus_in_order
  have hlt := (matchSkuAt_some h).1
  simp only [List.length_cons] at hlt
  simp only [List.length_cons, skuScanAux, h]
  rw [skuScanAux_congr cs.length rest.length rest (by omega) le_rfl]
  rfl

/-- Unfolding of the extractor at a failed match: advance one character. -/
theorem extract_skus_nomatch {c : Char} {cs : List Char}
    (h : matchSkuAt (c :: cs) = none) :
    extract_skus_in_order (c :: cs) = extract_skus_in_order cs := by
  unfold extract_skus_in_order
  simp only [List.length_cons, skuScanAux, h]

/-- Every token produced by the scanner is a non-empty alphanumeric string. -/
theorem skuScanAux_sound (fuel : Nat) : ∀ (s tok : List Char),
    tok ∈ skuScanAux fuel s → tok ≠ [] ∧ ∀ c ∈ tok, isAlnum c = true := by
  induction fuel with
  | zero => intro s tok h; simp [skuScanAux] at h
  | succ fuel ih =>
    intro s tok h
    cases s with
    | nil => simp [skuScanAux] at h
    | cons c cs =>
      simp only [skuScanAux] at h
      cases hm : matchSkuAt (c :: cs) with
      | none => rw [hm] at h; exact ih cs tok h
      | some pr =>
        obtain ⟨tok0, rest⟩ := pr
        rw [hm] at h
        simp only [List.mem_cons] at h
        rcases h with rfl | h
        · exact ⟨(matchSkuAt_some hm).2.1, (matchSkuAt_some hm).2.2⟩
        · exact ih rest tok h

/-! Bounds on parsed numbers. -/

/-- Folding decimal digits from an accumulator stays below the obvious power
of ten bound. -/
theorem decVal_foldl_lt :
    ∀ (t : List Char) (a : Nat), (∀ c ∈ t, isAsciiDigit c = true) →
      t.foldl (fun a c => 10 * a + (c.toNat - 48)) a < (a + 1) * 10 ^ t.length := by
  intro t
  induction t with
  | nil => intro a _; simp
  | cons c t ih =>
    intro a h
    have hc : c.toNat - 48 ≤ 9 := by
      have := h c (List.mem_cons_self c t)
      simp only [isAsciiDigit, Bool.and_eq_true, decide_eq_true_eq] at this
      omega
    have h2 := ih (10 * a + (c.toNat - 48)) fun d hd => h d (List.mem_cons_of_mem c hd)
    simp only [List.foldl_cons, List.length_cons]
    calc List.foldl (fun a c => 10 * a + (c.toNat - 48)) (10 * a + (c.toNat - 48)) t
        < (10 * a + (c.toNat - 48) + 1) * 10 ^ t.length := h2
      _ ≤ (10 * (a + 1)) * 10 ^ t.length := Nat.mul_le_mul_right _ (by omega)
      _ = (a + 1) * 10 ^ (t.length + 1) := by ring

/-- A string of at most four decimal digits parses below 10000. -/
theorem decVal_lt_of_short {t : List Char} (h : ∀ c ∈ t, isAsciiDigit c = true)
    (hlen : t.length ≤ 4) : decVal t < 10000 := by
  have h1 := decVal_foldl_lt t 0 h
  have h2 : (10 : Nat) ^ t.length ≤ 10 ^ 4 := Nat.pow_le_pow_right (by omega) hlen
  unfold decVal
  simp only [Nat.zero_add, Nat.one_mul] at h1
  calc t.foldl (fun a c => 10 * a + (c.toNat - 48)) 0 < 10 ^ t.length := h1
    _ ≤ 10 ^ 4 := h2
    _ = 10000 := by norm_num

/-- A leading-number match of the tail scan is below 10000. -/
theorem leadNum_bound {s : List Char} {n : Nat} (h : leadNum s = some n) : n < 10000 := by
  simp only [leadNum] at h
  split_ifs at h with h1
  simp only [Bool.or_eq_true, decide_eq_true_eq, not_or] at h1
  have hdig : ∀ c ∈ s.takeWhile isAsciiDigit, isAsciiDigit c = true :=
    fun c hc => List.mem_takeWhile_imp hc
  have hlen : (s.takeWhile isAsciiDigit).length ≤ 4 := by
    have := h1.2
    omega
  cases hdrop : s.drop (s.takeWhile isAsciiDigit).length with
  | nil =>
    rw [hdrop] at h
    have h2 : decVal (s.takeWhile isAsciiDigit) = n := Option.some.inj h
    exact h2 ▸ decVal_lt_of_short hdig hlen
  | cons c tail =>
    rw [hdrop] at h
    have h2 : (if isWordChar c = true then (none : Option Nat)
        else some (decVal (s.takeWhile isAsciiDigit))) = some n := h
    split_ifs at h2
    have h3 : decVal (s.takeWhile isAsciiDigit) = n := Option.some.inj h2
    exact h3 ▸ decVal_lt_of_short hdig hlen

/-- Every number emitted for one line of the header tail is below 10000. -/
theorem lineUnits_bound {line : List Char} {u : Nat} (h : u ∈ lineUnits line) :
    u < 10000 := by
  simp only [lineUnits] at h
  split_ifs at h with h1 h2
  · simp at h
  · rw [List.mem_map] at h
    obtain ⟨tk, htk, rfl⟩ := h
    have h3 : isShortNum tk = true := by
      rw [Bool.and_eq_true] at h2
      exact List.all_eq_true.mp h2.2 tk htk
    simp only [isShortNum, Bool.and_eq_true, decide_eq_true_eq] at h3
    exact decVal_lt_of_short (fun c hc => List.all_eq_true.mp h3.2 c hc) h3.1.2
  · split at h
    · rename_i n hn
      simp only [List.mem_singleton] at h
      exact h ▸ leadNum_bound hn
    · simp at h

/-! Claim theorems: identifier shape, determinism, quantity bounds. -/

/-- C1, counterexample: on a page reading SKU: 3 the extractor emits the
purely numeric token 3 as the identifier, so an emitted identifier need not
contain an ASCII letter. -/
theorem C1_cex_pure_numeric :
    extract_skus_in_order (str "SKU: 3") = [str "3"] ∧
    (str "3").all (fun c => !isAsciiLetter c) = true := by decide

/-- C1, amended: every identifier emitted by the extractor is a non-empty
string consisting solely of ASCII letters and digits; it need not contain a
letter, and a purely numeric token directly after the SKU: marker is
emitted as the identifier. -/
theorem C1_identifier_shape (t tok : List Char) (h : tok ∈ extract_skus_in_order t) :
    tok ≠ [] ∧ tok.all isAlnum = true := by
  unfold extract_skus_in_order at h
  obtain ⟨tok0, h0, rfl⟩ := List.mem_map.mp h
  have hs := skuScanAux_sound t.length t tok0 h0
  have hid : pyStrip tok0 = tok0 :=
    pyStrip_eq_self_of_all fun c hc => not_space_of_alnum (hs.2 c hc)
  rw [hid]
  exact ⟨hs.1, List.all_eq_true.mpr fun c hc => hs.2 c hc⟩

/-- Witness for C1 at a concrete page. -/
theorem C1_identifier_shape_witness :
    str "A1" ∈ extract_skus_in_order (str "SKU: A1") ∧
    (str "A1" ≠ [] ∧ (str "A1").all isAlnum = true) :=
  ⟨by decide, C1_identifier_shape (str "SKU: A1") (str "A1") (by decide)⟩

/-- C8, counterexample: with the text SKU: 3 AB12 the extractor does not
skip the purely numeric token 3 and look ahead to AB12; it emits 3 itself. -/
theorem C8_cex_no_skip :
    extract_skus_in_order (str "SKU: 3 AB12") = [str "3"] ∧
    (str "3").all isAsciiDigit = true := by decide

/-- C9, confirmed: the two extraction pipelines are functions of the page
texts alone, so byte-identical documents produce identical pair lists and
identical diagnostics. -/
theorem C9_deterministic (p1 p2 : List (List Char)) (h : p1 = p2) :
    pdf_to_pairs p1 = pdf_to_pairs p2 ∧ parse_pdf p1 = parse_pdf p2 := by
  subst h; exact ⟨rfl, rfl⟩

/-- Witness for C9 at a concrete document. -/
theorem C9_deterministic_witness :
    pdf_to_pairs [str "SKU: A1"] = pdf_to_pairs [str "SKU: A1"] ∧
    parse_pdf [str "SKU: A1"] = parse_pdf [str "SKU: A1"] :=
  C9_deterministic [str "SKU: A1"] [str "SKU: A1"] rfl

/-- C5, counterexample: the header scan of src/App.py emits the 5-digit
number 12345 as a quantity. -/
theorem C5_cex_large_quantity :
    extract_units_after_header (str "PRODUTO UNIDADES\n12345") = [12345] ∧
    9999 < 12345 := by decide

/-- C5, amended: every quantity emitted by the header-anchored tail scan of
src/app.py comes from a 1-4 digit token and is therefore at most 9999; the
scan of src/App.py has no such bound. -/
theorem C5_quantity_bound (t : List Char) (u : Nat)
    (h : u ∈ extract_units_from_tail t) : u < 10000 := by
  unfold extract_units_from_tail at h
  split at h
  · simp at h
  · unfold unitsLineScan at h
    rw [List.mem_flatten] at h
    obtain ⟨l, hl, hu⟩ := h
    rw [List.mem_map] at hl
    obtain ⟨line, _, rfl⟩ := hl
    exact lineUnits_bound hu

/-- Witness for C5 at a concrete page. -/
theorem C5_quantity_bound_witness :
    3 ∈ extract_units_from_tail (str "PRODUTO UNIDADES\n3") ∧ 3 < 10000 :=
  ⟨by decide, C5_quantity_bound (str "PRODUTO UNIDADES\n3") 3 (by decide)⟩

/-- C2, counterexample: on the one-page document SKU: A1 the pipeline of
src/App.py emits one record although min(identifiers, quantities) is zero;
the surplus identifier is not dropped but padded with a missing quantity. -/
theorem C2_cex_record_count :
    (parse_pdf [str "SKU: A1"]).1.length = 1 ∧
    min (extract_skus_in_order (str "SKU: A1")).length
      (extract_units_after_header (str "SKU: A1")).length = 0 := by decide

/-- C4, counterexample: the page UNIDADES then 3 contains no occurrence of
the header phrase PRODUTO-whitespace-UNIDADES, yet the scan of src/App.py
returns the quantity 3 (it falls back to anchoring at UNIDADES alone)
instead of the empty sequence. -/
theorem C4_cex_unidades_fallback :
    lastHeaderStart (str "UNIDADES\n3") = none ∧
    extract_units_after_header (str "UNIDADES\n3") = [3] := by decide

/-- C6, counterexample: on the page SKU: A1 with a lone bare number 7 and no
header, the claim calls for the tail-of-page fallback quantity [7], but
parse_pdf of src/App.py has no such fallback and pairs the identifier with a
missing quantity. -/
theorem C6_cex_no_fallback :
    parse_pdf [str "SKU: A1\n7"] =
      ([{ page := 1, sku := str "A1", unidades := none }], [Warn.countMismatch 1 1 0]) ∧
    extract_skus_in_order (str "SKU: A1\n7") = [str "A1"] ∧
    extract_units_after_header (str "SKU: A1\n7") = [] ∧
    findallBareNums (some 4) (str "SKU: A1\n7") = [7] := by decide

/-- C7, counterexample: a one-page document with no SKU: marker produces no
per-page diagnostic at all in src/App.py; the page is skipped and only the
document-level nothing-extracted warning is recorded, with no entry holding
the three counts for the page. -/
theorem C7_cex_no_page_diag :
    parse_pdf [str "hello"] = ([], [Warn.noData]) ∧
    extract_skus_in_order (str "hello") = [] := by decide

/-! Claim theorems: pairing law, per-page diagnostics, tail fallback. -/

/-- C2, amended: in pdf_to_pairs (src/app.py) each page contributes exactly
min(identifiers, quantities) positional pairs, surplus tokens on either side
are dropped, and the page diagnostic records the three counts {skus, units,
paired}; parse_pdf (src/App.py) does not obey this law - it emits one record
per identifier and pads missing quantities with None. -/
theorem C2_pairing_law (pages : List (List Char)) :
    (pdf_to_pairs pages).1 = (pages.map pagePairs).flatten ∧
    (pdf_to_pairs pages).2.per_page = pages.enum.map (fun p => pageDiag (p.1 + 1) p.2) ∧
    ∀ t : List Char,
      (pagePairs t).length =
        min (extract_skus_in_order t).length (pageUnitsUsed t).length ∧
      pageDiag 1 t = ⟨1, (extract_skus_in_order t).length, (pageUnitsUsed t).length,
        min (extract_skus_in_order t).length (pageUnitsUsed t).length⟩ := by
  refine ⟨rfl, rfl, fun t => ⟨?_, rfl⟩⟩
  simp [pagePairs, List.length_zip]

/-- C7, amended: pdf_to_pairs (src/app.py) appends one diagnostic entry for
every page; a page without any SKU: marker contributes zero pairs and a
diagnostic with zero identifiers and zero pairs, and no error is possible
(the pipeline is a total function).  parse_pdf (src/App.py) records no such
per-page diagnostic. -/
theorem C7_page_diag (pages : List (List Char)) (t : List Char) (i : Nat)
    (h : extract_skus_in_order t = []) :
    (pdf_to_pairs pages).2.per_page.length = pages.length ∧
    pagePairs t = [] ∧
    pageDiag i t = ⟨i, 0, (extract_units_from_tail t).length, 0⟩ := by
  refine ⟨by simp [pdf_to_pairs, List.enum_length], ?_, ?_⟩
  · simp [pagePairs, h]
  · have hu : pageUnitsUsed t = extract_units_from_tail t := by
      simp [pageUnitsUsed, h]
    simp [pageDiag, h, hu]

/-- Witness for C7 at a concrete marker-free page. -/
theorem C7_page_diag_witness :
    (pdf_to_pairs [str "hi"]).2.per_page.length = 1 ∧
    pagePairs (str "hi") = [] ∧
    pageDiag 1 (str "hi") = ⟨1, 0, 0, 0⟩ := by
  have h := C7_page_diag [str "hi"] (str "hi") 1 (by decide)
  refine ⟨h.1, h.2.1, ?_⟩
  rw [h.2.2]
  decide

/-- C6, amended: pdf_to_pairs (src/app.py) implements the tail-of-page
fallback - when the page has identifiers but the header scan found nothing,
the quantity sequence is the final segment of the bare 1-4 digit tokens of
the page, of length equal to the identifier count when enough tokens exist
(all of them otherwise, in occurrence order); parse_pdf (src/App.py) has no
such fallback. -/
theorem C6_tail_fallback (t : List Char)
    (h1 : extract_units_from_tail t = []) (h2 : extract_skus_in_order t ≠ []) :
    pageUnitsUsed t = (findallBareNums (some 4) t).drop
        ((findallBareNums (some 4) t).length - (extract_skus_in_order t).length) ∧
    findallBareNums (some 4) t =
      (findallBareNums (some 4) t).take
        ((findallBareNums (some 4) t).length - (extract_skus_in_order t).length) ++
      pageUnitsUsed t := by
  have hmain : pageUnitsUsed t = (findallBareNums (some 4) t).drop
      ((findallBareNums (some 4) t).length - (extract_skus_in_order t).length) := by
    unfold pageUnitsUsed
    rw [if_pos ⟨h1, h2⟩]
    by_cases h3 : findallBareNums (some 4) t = []
    · rw [if_pos h3, h3]
      simp
    · rw [if_neg h3]
  exact ⟨hmain, by rw [hmain]; exact (List.take_append_drop _ _).symm⟩

/-- Witness for C6 at a concrete page with one identifier and one bare
trailing number. -/
theorem C6_tail_fallback_witness : pageUnitsUsed (str "SKU: A1\n7") = [7] := by
  have h := (C6_tail_fallback (str "SKU: A1\n7") (by decide) (by decide)).1
  rw [h]
  decide

/-! Order-preservation helpers. -/

/-- The indices of an enumerated list are strictly increasing. -/
theorem enum_fst_pairwise {α : Type} (l : List α) :
    l.enum.Pairwise (fun a b => a.1 < b.1) :=
  List.pairwise_map.mp (by rw [List.enum_map_fst]; exact List.pairwise_lt_range _)

/-- A constant list is weakly increasing. -/
theorem pairwise_le_map_const {α : Type} (c : Nat) (l : List α) :
    (l.map fun _ => c).Pairwise (· ≤ ·) :=
  List.pairwise_of_forall_mem_list fun a ha b hb => by
    obtain ⟨x, _, rfl⟩ := List.mem_map.mp ha
    obtain ⟨y, _, rfl⟩ := List.mem_map.mp hb
    exact le_rfl

/-- First components of a zip are the first list truncated to the second
list's length. -/
theorem zip_map_fst {α β : Type} : ∀ (a : List α) (b : List β),
    (a.zip b).map Prod.fst = a.take b.length
  | [], _ => by simp
  | _ :: _, [] => by simp
  | x :: a, y :: b => by simp [zip_map_fst a b]

/-- Per-page characterisation of the rows of parse_pdf: the SKU column lists
the extracted identifiers in order and every row carries the page ordinal. -/
theorem parsePage_rows (idx : Nat) (t : List Char) :
    (parsePage idx t).1.map Row.sku = extract_skus_in_order t ∧
    ∀ r ∈ (parsePage idx t).1, r.page = idx := by
  simp only [parsePage]
  by_cases h : extract_skus_in_order t = []
  · rw [if_pos h, h]
    simp
  · rw [if_neg h]
    constructor
    · rw [List.map_map]
      have : (Row.sku ∘ fun p : Nat × List Char =>
          ({ page := idx, sku := p.2, unidades := (if (extract_units_after_header t).length >
              (extract_skus_in_order t).length then
              (extract_units_after_header t).take (extract_skus_in_order t).length
            else extract_units_after_header t).get? p.1 } : Row)) = Prod.snd := rfl
      rw [this, List.enum_map_snd]
    · intro r hr
      obtain ⟨p, _, rfl⟩ := List.mem_map.mp hr
      rfl

/-- Mapping a function of the value over an enumeration forgets the index. -/
theorem enum_map_snd_comp {α β : Type} (f : α → β) (l : List α) :
    l.enum.map (fun p => f p.2) = l.map f := by
  have h : (fun p : Nat × α => f p.2) = f ∘ Prod.snd := rfl
  rw [h, ← List.map_map, List.enum_map_snd]

/-- C3, confirmed: both pipelines emit records grouped by ascending page
ordinal, and inside a page the identifiers appear exactly in the order the
SKU: markers were discovered (a prefix of the discovery sequence in
pdf_to_pairs, the full sequence in parse_pdf); nothing is re-sorted. -/
theorem C3_order_preservation (pages : List (List Char)) :
    ((pdfPairsWithPages pages).map Prod.fst).Pairwise (· ≤ ·) ∧
    (pdfPairsWithPages pages).map Prod.snd = (pdf_to_pairs pages).1 ∧
    (∀ t : List Char, (pagePairs t).map Prod.fst =
      (extract_skus_in_order t).take (pageUnitsUsed t).length) ∧
    ((parse_pdf pages).1.map Row.page).Pairwise (· ≤ ·) ∧
    (∀ idx : Nat, ∀ t : List Char,
      (parsePage idx t).1.map Row.sku = extract_skus_in_order t ∧
      (parsePage idx t).1.all (fun r => r.page == idx) = true) := by
  refine ⟨?_, ?_, ?_, ?_, ?_⟩
  · unfold pdfPairsWithPages
    rw [List.map_flatten, List.map_map]
    have hfun : (List.map (Prod.fst : Nat × (List Char × Nat) → Nat) ∘
        fun p : Nat × List Char => (pagePairs p.2).map fun pr => (p.1 + 1, pr)) =
        fun p : Nat × List Char => (pagePairs p.2).map fun _ => p.1 + 1 := by
      funext p
      simp [List.map_map, Function.comp]
    rw [hfun, List.pairwise_flatten]
    constructor
    · intro l hl
      obtain ⟨p, _, rfl⟩ := List.mem_map.mp hl
      exact pairwise_le_map_const (p.1 + 1) (pagePairs p.2)
    · refine List.pairwise_map.mpr ((enum_fst_pairwise pages).imp ?_)
      intro a b hab x hx y hy
      obtain ⟨_, _, rfl⟩ := List.mem_map.mp hx
      obtain ⟨_, _, rfl⟩ := List.mem_map.mp hy
      omega
  · unfold pdfPairsWithPages pdf_to_pairs
    rw [List.map_flatten, List.map_map]
    have hfun : (List.map (Prod.snd : Nat × (List Char × Nat) → List Char × Nat) ∘
        fun p : Nat × List Char => (pagePairs p.2).map fun pr => (p.1 + 1, pr)) =
        fun p : Nat × List Char => pagePairs p.2 := by
      funext p
      simp [List.map_map, Function.comp]
    rw [hfun]
    exact congrArg List.flatten (enum_map_snd_comp pagePairs pages)
  · intro t
    unfold pagePairs
    exact zip_map_fst _ _
  · have hrows : (parse_pdf pages).1 =
        ((pages.enum.map fun p => parsePage (p.1 + 1) p.2).map Prod.fst).flatten := rfl
    rw [hrows, List.map_flatten, List.map_map, List.map_map]
    rw [List.pairwise_flatten]
    constructor
    · intro l hl
      obtain ⟨p, _, rfl⟩ := List.mem_map.mp hl
      refine List.pairwise_of_forall_mem_list fun a ha b hb => ?_
      simp only [Function.comp_apply] at ha hb
      obtain ⟨r, hr, rfl⟩ := List.mem_map.mp ha
      obtain ⟨r2, hr2, rfl⟩ := List.mem_map.mp hb
      rw [(parsePage_rows (p.1 + 1) p.2).2 r hr, (parsePage_rows (p.1 + 1) p.2).2 r2 hr2]
    · refine List.pairwise_map.mpr ((enum_fst_pairwise pages).imp ?_)
      intro a b hab x hx y hy
      simp only [Function.comp_apply] at hx hy
      obtain ⟨r, hr, rfl⟩ := List.mem_map.mp hx
      obtain ⟨r2, hr2, rfl⟩ := List.mem_map.mp hy
      rw [(parsePage_rows (a.1 + 1) a.2).2 r hr, (parsePage_rows (b.1 + 1) b.2).2 r2 hr2]
      omega
  · intro idx t
    refine ⟨(parsePage_rows idx t).1, List.all_eq_true.mpr fun r hr => ?_⟩
    exact beq_iff_eq.mpr ((parsePage_rows idx t).2 r hr)

/-! Header anchor characterisation. -/

/-- Beyond the end of the text the header pattern cannot match. -/
theorem matchHeaderAt_beyond {s : List Char} {j : Nat} (h : s.length ≤ j) :
    matchHeaderAt (s.drop j) = false := by
  rw [List.drop_eq_nil_of_le h]
  decide

/-- When the backwards search fails, no position up to the bound matches. -/
theorem lastHeaderFrom_none : ∀ (n : Nat) (s : List Char), lastHeaderFrom n s = none →
    ∀ j ≤ n, matchHeaderAt (s.drop j) = false := by
  intro n
  induction n with
  | zero =>
    intro s h j hj
    have hj0 : j = 0 := by omega
    subst hj0
    rw [List.drop_zero]
    by_cases h1 : matchHeaderAt s = true
    · rw [lastHeaderFrom, if_pos h1] at h
      cases h
    · simpa using h1
  | succ n ih =>
    intro s h j hj
    by_cases h1 : matchHeaderAt (s.drop (n + 1)) = true
    · rw [lastHeaderFrom, if_pos h1] at h
      cases h
    · rw [lastHeaderFrom, if_neg h1] at h
      rcases Nat.lt_or_ge j (n + 1) with hlt | hge
      · exact ih s h j (by omega)
      · have hj1 : j = n + 1 := by omega
        subst hj1
        simpa using h1

/-- When the backwards search succeeds it returns the greatest matching
position within the bound. -/
theorem lastHeaderFrom_some : ∀ (n : Nat) (s : List Char) (i : Nat),
    lastHeaderFrom n s = some i →
    i ≤ n ∧ matchHeaderAt (s.drop i) = true ∧
      ∀ j ≤ n, i < j → matchHeaderAt (s.drop j) = false := by
  intro n
  induction n with
  | zero =>
    intro s i h
    by_cases h1 : matchHeaderAt s = true
    · rw [lastHeaderFrom, if_pos h1] at h
      obtain rfl : 0 = i := Option.some.inj h
      exact ⟨le_rfl, by rwa [List.drop_zero], fun j hj hij => by omega⟩
    · rw [lastHeaderFrom, if_neg h1] at h
      cases h
  | succ n ih =>
    intro s i h
    by_cases h1 : matchHeaderAt (s.drop (n + 1)) = true
    · rw [lastHeaderFrom, if_pos h1] at h
      obtain rfl : n + 1 = i := Option.some.inj h
      exact ⟨le_rfl, h1, fun j hj hij => by omega⟩
    · rw [lastHeaderFrom, if_neg h1] at h
      obtain ⟨hle, hm, hforall⟩ := ih s i h
      refine ⟨by omega, hm, fun j hj hij => ?_⟩
      rcases Nat.lt_or_ge j (n + 1) with hlt | hge
      · exact hforall j (by omega) hij
      · have hj1 : j = n + 1 := by omega
        subst hj1
        simpa using h1

/-- C4, amended: extract_units_from_tail (src/app.py) anchors at the
greatest position where PRODUTO-whitespace-UNIDADES matches, its output is
the per-line scan of the suffix from that anchor only, and it returns the
empty sequence when the phrase matches nowhere.  The companion scan
extract_units_after_header (src/App.py) does not satisfy the claim: it
requires the exact single-space phrase and, failing that, anchors at the
last occurrence of UNIDADES alone. -/
theorem C4_header_anchor (t : List Char) :
    (lastHeaderStart t = none →
      extract_units_from_tail t = [] ∧ ∀ j, matchHeaderAt (t.drop j) = false) ∧
    (∀ i, lastHeaderStart t = some i →
      matchHeaderAt (t.drop i) = true ∧
      (∀ j, i < j → matchHeaderAt (t.drop j) = false) ∧
      extract_units_from_tail t = unitsLineScan (t.drop i)) := by
  constructor
  · intro h
    refine ⟨by unfold extract_units_from_tail; rw [h], fun j => ?_⟩
    rcases Nat.lt_or_ge j (t.length + 1) with hlt | hge
    · exact lastHeaderFrom_none t.length t h j (by omega)
    · exact matchHeaderAt_beyond (by omega)
  · intro i h
    obtain ⟨hle, hm, hforall⟩ := lastHeaderFrom_some t.length t i h
    refine ⟨hm, fun j hij => ?_, by unfold extract_units_from_tail; rw [h]⟩
    rcases Nat.lt_or_ge j (t.length + 1) with hlt | hge
    · exact hforall j (by omega) hij
    · exact matchHeaderAt_beyond (by omega)

/-- Witness for C4: a page without the phrase yields no quantities, and on a
concrete page with the phrase at position 0 the anchor behaves as stated. -/
theorem C4_header_anchor_witness :
    extract_units_from_tail (str "no header 3") = [] ∧
    matchHeaderAt ((str "PRODUTO UNIDADES\n3").drop 0) = true ∧
    matchHeaderAt ((str "PRODUTO UNIDADES\n3").drop 5) = false ∧
    extract_units_from_tail (str "PRODUTO UNIDADES\n3") =
      unitsLineScan ((str "PRODUTO UNIDADES\n3").drop 0) := by
  have h1 := (C4_header_anchor (str "no header 3")).1 (by decide)
  have h2 := (C4_header_anchor (str "PRODUTO UNIDADES\n3")).2 0 (by decide)
  exact ⟨h1.1, h2.1, h2.2.1 5 (by decide), h2.2.2⟩

/-- C8, amended: the extractor performs no look-ahead, skips nothing and
consults no denylist: the token captured for a marker is exactly the maximal
alphanumeric run that follows the SKU: label and the intervening whitespace,
even when that run is purely numeric, and scanning resumes right after it. -/
theorem C8_capture_immediate (ws tok rest : List Char)
    (hws : ws.all isPySpace = true) (htok : tok ≠ [])
    (htok2 : tok.all isAlnum = true)
    (hrest : (rest.take 1).all (fun c => !isAlnum c) = true) :
    extract_skus_in_order (str "SKU:" ++ (ws ++ (tok ++ rest))) =
      tok :: extract_skus_in_order rest := by
  have hwsAll : ∀ c ∈ ws, isPySpace c = true := List.all_eq_true.mp hws
  have htokAll : ∀ c ∈ tok, isAlnum c = true := List.all_eq_true.mp htok2
  have hdrop : (ws ++ (tok ++ rest)).dropWhile isPySpace = tok ++ rest := by
    rw [List.dropWhile_append, List.dropWhile_eq_nil_iff.mpr hwsAll]
    simp only [List.isEmpty_nil, if_true]
    cases tok with
    | nil => exact absurd rfl htok
    | cons c cs =>
      have hc : isPySpace c = false :=
        not_space_of_alnum (htokAll c (List.mem_cons_self c cs))
      simp [List.dropWhile_cons, hc]
  have htake : (tok ++ rest).takeWhile isAlnum = tok := by
    rw [List.takeWhile_append, List.takeWhile_eq_self_iff.mpr htokAll]
    simp only [if_pos rfl]
    cases rest with
    | nil => simp
    | cons c cs =>
      have hc : isAlnum c = false := by
        have := List.all_eq_true.mp hrest c (by simp)
        simpa using this
      simp [List.takeWhile_cons, hc]
  have hmatch : matchSkuAt ('S' :: 'K' :: 'U' :: ':' :: (ws ++ (tok ++ rest))) =
      some (tok, rest) := by
    simp only [matchSkuAt, hdrop, htake]
    simp [htok]
  have hshape : str "SKU:" ++ (ws ++ (tok ++ rest)) =
      'S' :: 'K' :: 'U' :: ':' :: (ws ++ (tok ++ rest)) := rfl
  rw [hshape, extract_skus_match hmatch,
    pyStrip_eq_self_of_all fun c hc => not_space_of_alnum (htokAll c hc)]

/-- Witness for C8: the marker, one space, a purely numeric-free token B2
and a non-alphanumeric remainder. -/
theorem C8_capture_immediate_witness :
    extract_skus_in_order (str "SKU:" ++ (str " " ++ (str "B2" ++ str "!"))) =
      str "B2" :: extract_skus_in_order (str "!") :=
  C8_capture_immediate (str " ") (str "B2") (str "!")
    (by decide) (by decide) (by decide) (by decide)

/-! Decimal rendering round trip. -/

/-- The decimal digit characters carry their value and are ASCII digits. -/
theorem digitChar_val {n : Nat} (h : n < 10) :
    (Nat.digitChar n).toNat - 48 = n ∧ isAsciiDigit (Nat.digitChar n) = true := by
  interval_cases n <;> exact ⟨by decide, by decide⟩

/-- Appending one digit multiplies the parsed value by ten. -/
theorem decVal_append_digit (xs : List Char) (c : Char) :
    decVal (xs ++ [c]) = 10 * decVal xs + (c.toNat - 48) := by
  unfold decVal
  rw [List.foldl_append]
  rfl

/-- The fuelled renderer is correct whenever the fuel covers the number. -/
theorem natToDecAux_spec : ∀ (fuel n : Nat), n < fuel →
    decVal (natToDecAux fuel n) = n ∧ natToDecAux fuel n ≠ [] ∧
    ∀ c ∈ natToDecAux fuel n, isAsciiDigit c = true := by
  intro fuel
  induction fuel with
  | zero => intro n h; omega
  | succ fuel ih =>
    intro n h
    rw [natToDecAux]
    by_cases h10 : n < 10
    · rw [if_pos h10]
      refine ⟨?_, by simp, ?_⟩
      · have hv : decVal [Nat.digitChar n] = (Nat.digitChar n).toNat - 48 := by
          simp [decVal]
        rw [hv, (digitChar_val h10).1]
      · intro c hc
        simp only [List.mem_singleton] at hc
        subst hc
        exact (digitChar_val h10).2
    · rw [if_neg h10]
      have hrec := ih (n / 10) (by omega)
      have hmod : n % 10 < 10 := Nat.mod_lt n (by omega)
      refine ⟨?_, by simp, ?_⟩
      · rw [decVal_append_digit, hrec.1, (digitChar_val hmod).1]
        omega
      · intro c hc
        rcases List.mem_append.mp hc with h1 | h1
        · exact hrec.2.2 c h1
        · simp only [List.mem_singleton] at h1
          subst h1
          exact (digitChar_val hmod).2

/-- The decimal rendering of a quantity parses back to the quantity, is
non-empty, and consists of ASCII digits. -/
theorem natToDec_spec (n : Nat) : decVal (natToDec n) = n ∧ natToDec n ≠ [] ∧
    ∀ c ∈ natToDec n, isAsciiDigit c = true :=
  natToDecAux_spec (n + 1) n (by omega)

/-! splitlines of a newline-joined list of clean lines. -/

/-- A non-empty line without line boundaries splits to itself. -/
theorem pySplitlines_no_break : ∀ (l : List Char), (∀ c ∈ l, isLineBreak c = false) →
    l ≠ [] → pySplitlines l = [l]
  | [], _, h => absurd rfl h
  | [c], h, _ => by
    have hc : isLineBreak c = false := h c (by simp)
    simp [pySplitlines, hc]
  | c :: d :: cs, h, _ => by
    have hc : isLineBreak c = false := h c (by simp)
    have hrec := pySplitlines_no_break (d :: cs)
      (fun x hx => h x (List.mem_cons_of_mem c hx)) (by simp)
    have hcr : ¬((decide (c = '\r') && decide (d = '\n')) = true) := by
      intro hb
      rw [Bool.and_eq_true] at hb
      have h1 : c = '\r' := of_decide_eq_true hb.1
      rw [h1] at hc
      exact absurd hc (by decide)
    rw [pySplitlines, if_neg hcr, if_neg (by simp [hc]), hrec]

/-- Prepending a clean line and a newline adds one line to the split. -/
theorem pySplitlines_append (l r : List Char) (h : ∀ c ∈ l, isLineBreak c = false) :
    pySplitlines (l ++ '\n' :: r) = l :: pySplitlines r := by
  induction l with
  | nil =>
    cases r with
    | nil =>
      rw [List.nil_append]
      show pySplitlines ['\n'] = [[]]
      rw [pySplitlines, if_pos (by decide)]
    | cons d ds =>
      rw [List.nil_append, pySplitlines, if_neg (by simp), if_pos (by decide)]
  | cons c l ih =>
    have hc : isLineBreak c = false := h c (by simp)
    have hcr : c ≠ '\r' := by
      intro he
      rw [he] at hc
      exact absurd hc (by decide)
    cases hl : l ++ '\n' :: r with
    | nil => exact absurd hl (by simp)
    | cons d cs =>
      rw [List.cons_append, hl, pySplitlines, if_neg (by simp [hcr]),
        if_neg (by simp [hc]), ← hl, ih fun x hx => h x (List.mem_cons_of_mem c hx)]

/-- splitlines inverts the newline join of non-empty boundary-free lines. -/
theorem pySplitlines_joinNl : ∀ (ls : List (List Char)),
    (∀ l ∈ ls, l ≠ [] ∧ ∀ c ∈ l, isLineBreak c = false) → ls ≠ [] →
    pySplitlines (joinNl ls) = ls
  | [], _, h => absurd rfl h
  | [l], h, _ => by
    have hl := h l (by simp)
    rw [joinNl]
    exact pySplitlines_no_break l hl.2 hl.1
  | l :: l2 :: ls, h, _ => by
    rw [joinNl, pySplitlines_append l _ (h l (by simp)).2,
      pySplitlines_joinNl (l2 :: ls) (fun x hx => h x (List.mem_cons_of_mem l hx)) (by simp)]

/-! Markdown cell computation. -/

/-- Splitting a bar-free string yields the single piece. -/
theorem splitOnChar_no_bar : ∀ (a : List Char), (∀ c ∈ a, c ≠ '|') →
    splitOnChar '|' a = [a]
  | [], _ => rfl
  | c :: cs, h => by
    rw [splitOnChar, if_neg (h c (by simp)),
      splitOnChar_no_bar cs fun x hx => h x (List.mem_cons_of_mem c hx)]

/-- Splitting at the first bar separates the bar-free prefix. -/
theorem splitOnChar_append (a b : List Char) (h : ∀ c ∈ a, c ≠ '|') :
    splitOnChar '|' (a ++ '|' :: b) = a :: splitOnChar '|' b := by
  induction a with
  | nil => rw [List.nil_append, splitOnChar, if_pos rfl]
  | cons c cs ih =>
    rw [List.cons_append, splitOnChar, if_neg (h c (by simp)),
      ih fun x hx => h x (List.mem_cons_of_mem c hx)]

/-- Stripping the outer bars of a well-formed table line removes exactly the
first and last character. -/
theorem pyStripChar_bar (m : List Char) :
    pyStripChar '|' ('|' :: ' ' :: m ++ [' ', '|']) = ' ' :: m ++ [' '] := by
  unfold pyStripChar
  simp only [List.cons_append]
  rw [List.dropWhile_cons, if_pos (by decide), List.dropWhile_cons,
    if_neg (by decide)]
  have h2 : (' ' :: (m ++ [' ', '|'])).reverse = '|' :: ' ' :: (m.reverse ++ [' ']) := by
    simp
  rw [h2, List.dropWhile_cons, if_pos (by decide), List.dropWhile_cons,
    if_neg (by decide)]
  simp

/-- Stripping a token padded by single spaces recovers the token. -/
theorem pyStrip_pad (s : List Char) (h : ∀ c ∈ s, isPySpace c = false)
    (hne : s ≠ []) : pyStrip (' ' :: s ++ [' ']) = s := by
  unfold pyStrip
  simp only [List.cons_append]
  have h1 : (s ++ [' ']).dropWhile isPySpace = s ++ [' '] := by
    cases s with
    | nil => exact absurd rfl hne
    | cons c cs =>
      rw [List.cons_append, List.dropWhile_cons, if_neg (by simp [h c (by simp)])]
  rw [List.dropWhile_cons, if_pos (by decide), h1]
  have h2 : (s ++ [' ']).reverse = ' ' :: s.reverse := by simp
  rw [h2, List.dropWhile_cons, if_pos (by decide)]
  have h3 : s.reverse.dropWhile isPySpace = s.reverse :=
    dropWhile_eq_self_of_head s.reverse fun c hc =>
      h c (List.mem_reverse.mp (List.mem_of_mem_take hc))
  rw [h3, List.reverse_reverse]

/-- re.search of a digit run on an all-digit cell parses the whole cell. -/
theorem firstNum_digits (d : List Char) (h : ∀ c ∈ d, isAsciiDigit c = true)
    (hne : d ≠ []) : firstNum d = some (decVal d) := by
  cases d with
  | nil => exact absurd rfl hne
  | cons c cs =>
    rw [firstNum, if_pos (h c (by simp))]
    have : (c :: cs).takeWhile isAsciiDigit = c :: cs :=
      List.takeWhile_eq_self_iff.mpr h
    rw [this]

/-- A non-empty alphanumeric cell never looks like a separator cell. -/
theorem sepCell_false_of_alnum (t : List Char) (hne : t ≠ [])
    (h : ∀ c ∈ t, isAlnum c = true) : sepCell t = false := by
  simp only [sepCell]
  have hfil : t.filter (· ≠ ' ') = t :=
    List.filter_eq_self.mpr fun c hc => decide_eq_true (alnum_vals (h c hc)).2.1
  rw [hfil]
  cases t with
  | nil => exact absurd rfl hne
  | cons c cs =>
    have hc := alnum_vals (h c (by simp))
    rw [if_neg (by simp [hc.2.2.1]), List.takeWhile_cons, if_neg (by simp [hc.2.2.2])]
    simp

/-- Cell list of a well-formed two-column row line: the SKU cell and the
quantity cell. -/
theorem cellsOf_row (s d : List Char) (hs : ∀ c ∈ s, isAlnum c = true)
    (hsne : s ≠ []) (hd : ∀ c ∈ d, isAsciiDigit c = true) (hdne : d ≠ []) :
    cellsOf ('|' :: ' ' :: (s ++ (' ' :: '|' :: ' ' :: d)) ++ [' ', '|']) = [s, d] := by
  have ha : ∀ c ∈ ' ' :: s ++ [' '], c ≠ '|' := by
    intro c hc
    simp only [List.cons_append, List.mem_cons, List.mem_append,
      List.not_mem_nil, or_false] at hc
    rcases hc with rfl | hc | rfl
    · decide
    · exact (alnum_vals (hs c hc)).1
    · decide
  have hb : ∀ c ∈ ' ' :: d ++ [' '], c ≠ '|' := by
    intro c hc
    simp only [List.cons_append, List.mem_cons, List.mem_append,
      List.not_mem_nil, or_false] at hc
    rcases hc with rfl | hc | rfl
    · decide
    · exact (alnum_vals (alnum_of_digit (hd c hc))).1
    · decide
  unfold cellsOf
  rw [pyStripChar_bar]
  have hsplit : ' ' :: (s ++ (' ' :: '|' :: ' ' :: d)) ++ [' '] =
      (' ' :: s ++ [' ']) ++ '|' :: (' ' :: d ++ [' ']) := by
    simp
  rw [hsplit, splitOnChar_append _ _ ha, splitOnChar_no_bar _ hb]
  simp only [List.map_cons, List.map_nil]
  rw [pyStrip_pad s (fun c hc => not_space_of_alnum (hs c hc)) hsne,
    pyStrip_pad d (fun c hc => not_space_of_alnum (alnum_of_digit (hd c hc))) hdne]

/-- Normal form of one markdown row line. -/
theorem mdRowLine_shape (p : List Char × Nat) :
    mdRowLine p = '|' :: ' ' :: (p.1 ++ (' ' :: '|' :: ' ' :: natToDec p.2)) ++ [' ', '|'] := by
  unfold mdRowLine str
  simp [List.append_assoc]

/-- Structural facts about one markdown row line built from a non-empty
alphanumeric SKU. -/
theorem mdRowLine_facts (p : List Char × Nat) (hs1 : p.1 ≠ [])
    (hs : ∀ c ∈ p.1, isAlnum c = true) :
    (∀ c ∈ mdRowLine p, isLineBreak c = false) ∧
    mdRowLine p ≠ [] ∧
    pyStrip (mdRowLine p) = mdRowLine p ∧
    startsBar (mdRowLine p) = true ∧ endsBar (mdRowLine p) = true ∧
    isSepLine (mdRowLine p) = false ∧
    cellsOf (mdRowLine p) = [p.1, natToDec p.2] := by
  obtain ⟨hval, hdne, hdig⟩ := natToDec_spec p.2
  have hcells : cellsOf (mdRowLine p) = [p.1, natToDec p.2] := by
    rw [mdRowLine_shape]
    exact cellsOf_row p.1 (natToDec p.2) hs hs1 hdig hdne
  have hchars : ∀ c ∈ mdRowLine p, c = '|' ∨ c = ' ' ∨ c ∈ p.1 ∨ c ∈ natToDec p.2 := by
    intro c hc
    rw [mdRowLine_shape] at hc
    simp only [List.cons_append, List.mem_cons, List.mem_append] at hc
    tauto
  refine ⟨?_, ?_, ?_, ?_, ?_, ?_, hcells⟩
  · intro c hc
    rcases hchars c hc with rfl | rfl | h1 | h1
    · decide
    · decide
    · exact not_break_of_alnum (hs c h1)
    · exact not_break_of_alnum (alnum_of_digit (hdig c h1))
  · rw [mdRowLine_shape]
    simp
  · apply pyStrip_eq_self
    · rw [mdRowLine_shape]
      intro c hc
      simp at hc
      subst hc
      decide
    · rw [mdRowLine_shape]
      intro c hc
      simp at hc
      subst hc
      decide
  · rw [mdRowLine_shape]
    rfl
  · rw [mdRowLine_shape]
    unfold endsBar
    rw [show ('|' :: ' ' :: (p.1 ++ (' ' :: '|' :: ' ' :: natToDec p.2)) ++ [' ', '|']) =
      (('|' :: ' ' :: (p.1 ++ (' ' :: '|' :: ' ' :: natToDec p.2)) ++ [' ']) ++ ['|']) by simp]
    rw [List.getLast?_concat]
    decide
  · unfold isSepLine
    rw [hcells, List.all_cons, sepCell_false_of_alnum p.1 hs1 hs]
    simp

/-! Markdown round trip (C10). -/

/-- Parsing the data rows of the generated markdown table recovers every
pair: each row line yields exactly its SKU and its quantity. -/
theorem mdBody_parse (pairs : List (List Char × Nat))
    (hp : ∀ p ∈ pairs, p.1 ≠ [] ∧ ∀ c ∈ p.1, isAlnum c = true) :
    (pairs.map mdRowLine).filterMap (fun r =>
      let cells := cellsOf r
      if cells.length ≤ max 0 1 then none
      else
        let sku := pyStrip (cells.getD 0 [])
        if sku = [] then none
        else some (sku, firstNum (cells.getD 1 []))) =
      pairs.map fun p => (p.1, some p.2) := by
  induction pairs with
  | nil => rfl
  | cons p ps ih =>
    have hpf := hp p (by simp)
    obtain ⟨hval, hdne, hdig⟩ := natToDec_spec p.2
    have hfacts := mdRowLine_facts p hpf.1 hpf.2
    rw [List.map_cons, List.filterMap_cons]
    simp only [hfacts.2.2.2.2.2.2, List.length_cons, List.length_nil,
      List.getD_cons_zero, List.getD_cons_succ,
      pyStrip_eq_self_of_all fun c hc => not_space_of_alnum (hpf.2 c hc),
      hpf.1, firstNum_digits (natToDec p.2) hdig hdne, hval]
    rw [if_neg (by decide), if_false, List.map_cons]
    exact congrArg _ (ih fun q hq => hp q (List.mem_cons_of_mem p hq))

/-- C10, confirmed: serialising pairs whose SKU components are non-empty
alphanumeric strings with pairs_to_markdown and parsing the result back with
markdown_to_df yields exactly the same SKUs and quantities in the same
order - the markdown detour loses no pair and reorders nothing. -/
theorem C10_markdown_roundtrip (pairs : List (List Char × Nat))
    (hp : ∀ p ∈ pairs, p.1 ≠ [] ∧ ∀ c ∈ p.1, isAlnum c = true) :
    markdown_to_df (pairs_to_markdown pairs) = pairs.map fun p => (p.1, some p.2) := by
  have hmd : pairs_to_markdown pairs =
      joinNl (str "| SKU | UNIDADES |" :: str "|---|---:|" :: pairs.map mdRowLine) := rfl
  have hsplit : pySplitlines (pairs_to_markdown pairs) =
      str "| SKU | UNIDADES |" :: str "|---|---:|" :: pairs.map mdRowLine := by
    rw [hmd]
    apply pySplitlines_joinNl _ _ (by simp)
    intro l hl
    rcases List.mem_cons.mp hl with rfl | hl
    · exact ⟨by decide, by decide⟩
    rcases List.mem_cons.mp hl with rfl | hl
    · exact ⟨by decide, by decide⟩
    obtain ⟨p, hpm, rfl⟩ := List.mem_map.mp hl
    have hf := mdRowLine_facts p (hp p hpm).1 (hp p hpm).2
    exact ⟨hf.2.1, hf.1⟩
  have hnotnil : ¬(pyStrip (pairs_to_markdown pairs) = []) := by
    apply pyStrip_ne_nil _ (show isPySpace '|' = false by decide)
    rw [hmd, joinNl]
    exact List.mem_append.mpr (Or.inl (by decide))
  have hmapstrip : (str "| SKU | UNIDADES |" :: str "|---|---:|" ::
      pairs.map mdRowLine).map pyStrip =
      str "| SKU | UNIDADES |" :: str "|---|---:|" :: pairs.map mdRowLine := by
    simp only [List.map_cons]
    rw [show pyStrip (str "| SKU | UNIDADES |") = str "| SKU | UNIDADES |" by decide,
      show pyStrip (str "|---|---:|") = str "|---|---:|" by decide, List.map_map]
    have : ∀ p ∈ pairs, (pyStrip ∘ mdRowLine) p = mdRowLine p := fun p hpm =>
      (mdRowLine_facts p (hp p hpm).1 (hp p hpm).2).2.2.1
    rw [List.map_congr_left this]
  have h1 : List.filter (fun x => decide (x ≠ []))
      (str "| SKU | UNIDADES |" :: str "|---|---:|" :: pairs.map mdRowLine) =
      str "| SKU | UNIDADES |" :: str "|---|---:|" :: pairs.map mdRowLine := by
    apply List.filter_eq_self.mpr
    intro a ha
    rcases List.mem_cons.mp ha with rfl | ha
    · decide
    rcases List.mem_cons.mp ha with rfl | ha
    · decide
    obtain ⟨p, hpm, rfl⟩ := List.mem_map.mp ha
    exact decide_eq_true (mdRowLine_facts p (hp p hpm).1 (hp p hpm).2).2.1
  have h2 : List.filter (fun ln => startsBar ln && endsBar ln)
      (str "| SKU | UNIDADES |" :: str "|---|---:|" :: pairs.map mdRowLine) =
      str "| SKU | UNIDADES |" :: str "|---|---:|" :: pairs.map mdRowLine := by
    apply List.filter_eq_self.mpr
    intro a ha
    rcases List.mem_cons.mp ha with rfl | ha
    · decide
    rcases List.mem_cons.mp ha with rfl | ha
    · decide
    obtain ⟨p, hpm, rfl⟩ := List.mem_map.mp ha
    have hf := mdRowLine_facts p (hp p hpm).1 (hp p hpm).2
    rw [hf.2.2.2.1, hf.2.2.2.2.1]
    rfl
  have h3 : List.filter (fun ln => !isSepLine ln)
      (str "| SKU | UNIDADES |" :: str "|---|---:|" :: pairs.map mdRowLine) =
      str "| SKU | UNIDADES |" :: pairs.map mdRowLine := by
    rw [List.filter_cons, if_pos (by decide), List.filter_cons, if_neg (by decide)]
    congr 1
    apply List.filter_eq_self.mpr
    intro a ha
    obtain ⟨p, hpm, rfl⟩ := List.mem_map.mp ha
    rw [(mdRowLine_facts p (hp p hpm).1 (hp p hpm).2).2.2.2.2.2.1]
    rfl
  have hlen : ¬((str "| SKU | UNIDADES |" :: str "|---|---:|" ::
      pairs.map mdRowLine).length < 2) := by
    simp only [List.length_cons]
    omega
  have hheader : (cellsOf (str "| SKU | UNIDADES |")).map pyUpper =
      [str "SKU", str "UNIDADES"] := by decide
  have hf1 : List.findIdx? (fun x => decide (x = str "SKU"))
      [str "SKU", str "UNIDADES"] = some 0 := by decide
  have hf2 : List.findIdx? (fun x => decide (x = str "UNIDADES"))
      [str "SKU", str "UNIDADES"] = some 1 := by decide
  unfold markdown_to_df
  rw [if_neg hnotnil, hsplit, hmapstrip]
  simp only [h1, h2, eq_false hlen, if_false, h3, hheader, hf1, hf2]
  exact mdBody_parse pairs hp

/-- Witness for C10 at a concrete one-pair list. -/
theorem C10_markdown_roundtrip_witness :
    markdown_to_df (pairs_to_markdown [(str "A1", 3)]) = [(str "A1", some 3)] :=
  (C10_markdown_roundtrip [(str "A1", 3)] (by decide)).trans (by decide)
